import Mathlib

/-!
Verification of the rate-limiting and in-memory caching subsystem of the
AutoForms backend (`backend/services/rate_limiter.py`, `backend/services/cache.py`,
`backend/services/memory_cache.py`).

Timestamps (Python `time.time()` floats / `datetime` values) are modelled as
rationals `ℚ`; the code only adds, subtracts and compares them, so the
algorithmic content is exact.  Python dictionaries are modelled as
insertion-ordered association lists (`dictGet`/`dictSet`/`dictErase`:
first binding wins on lookup, overwrite keeps the position, as CPython
dicts do).  `hashlib` digests are kept abstract: every operation is
parametrised by the hash function `h` it truncates, and claims about
distinct identifiers hypothesise that the derived keys differ.  Python
truthiness of `Optional[float]` / `Optional[int]` fields (`None` and `0`
are both falsy) is rendered by explicit `≠ 0` tests.  A raised exception
(`KeyError` from a failed dict subscript, `TypeError` from comparing a
float with `None`) is modelled with `Except`.
-/

namespace AutoForms

/-- Python truthiness of an `Optional[int]` value: `None` and `0` are falsy. -/
def truthyI : Option ℤ → Bool
  | none => false
  | some x => x ≠ 0

/-- Python `int()` applied to a float: truncation toward zero.  Only feeds the
human-readable cooldown message. -/
def truncQ (q : ℚ) : ℤ := q.num.tdiv q.den

/-- Python dict lookup: first binding for the key, if any. -/
def dictGet {β : Type} : List (String × β) → String → Option β
  | [], _ => none
  | (k', v) :: rest, k => if k' = k then some v else dictGet rest k

/-- Python dict assignment: overwrite in place if the key is present
(keeping its position, as CPython does), else append. -/
def dictSet {β : Type} : List (String × β) → String → β → List (String × β)
  | [], k, v => [(k, v)]
  | (k', v') :: rest, k, v =>
    if k' = k then (k, v) :: rest else (k', v') :: dictSet rest k v

/-- Python `del d[k]`: remove the binding for the key. -/
def dictErase {β : Type} : List (String × β) → String → List (String × β)
  | [], _ => []
  | (k', v') :: rest, k => if k' = k then rest else (k', v') :: dictErase rest k

/-- `RateLimitRule` from `rate_limiter.py`: configuration for rate limiting rules. -/
structure RateLimitRule where
  max_requests : ℤ
  window_seconds : ℤ
  burst_limit : Option ℤ := none
  cooldown_seconds : Option ℤ := none
  deriving Repr, DecidableEq

/-- `RateLimitRecord` from `rate_limiter.py`: tracks rate limit attempts. -/
structure RateLimitRecord where
  requests : List ℚ := []
  blocked_until : Option ℚ := none
  total_blocked : ℤ := 0
  deriving Repr, DecidableEq

/-- The `defaultdict(RateLimitRecord)` default: a fresh record. -/
def RateLimitRecord.default : RateLimitRecord := {}

/-- The `_records` mapping, an insertion-ordered dict from keys to records. -/
abbrev RLState := List (String × RateLimitRecord)

/-- Dict read with `defaultdict` semantics: a missing key yields a fresh record. -/
def getRecord (st : RLState) (k : String) : RateLimitRecord :=
  match dictGet st k with
  | some r => r
  | none => RateLimitRecord.default

/-- `EmailRateLimiter._cleanup_old_records`: drop request timestamps at or
before `now - window_seconds` (the code keeps `req_time > cutoff_time`). -/
def cleanup_old_records (record : RateLimitRecord) (window_seconds : ℤ) (now : ℚ) :
    RateLimitRecord :=
  { record with requests := record.requests.filter (fun t => now - (window_seconds : ℚ) < t) }

/-- Lines 112–122 of `EmailRateLimiter.check_rate_limit`: prune the window,
then test capacity and, on a violation, apply the configured cooldown. -/
def checkCapacity (rule_name : String) (rule : RateLimitRule) (record : RateLimitRecord)
    (now : ℚ) : Option (Bool × String) × RateLimitRecord :=
  let record := cleanup_old_records record rule.window_seconds now
  if rule.max_requests ≤ (record.requests.length : ℤ) then
    let record :=
      if truthyI rule.cooldown_seconds then
        match rule.cooldown_seconds with
        | some c =>
          { record with blocked_until := some (now + (c : ℚ)),
                        total_blocked := record.total_blocked + 1 }
        | none => record
      else record
    (some (false, "Rate limit exceeded for " ++ rule_name ++ ". Maximum "
      ++ toString rule.max_requests ++ " requests per "
      ++ toString rule.window_seconds ++ " seconds."), record)
  else (none, record)

/-- Body of the per-rule loop in `EmailRateLimiter.check_rate_limit`
(lines 103–122): cooldown gate, expired-block clearing, window pruning,
capacity check.  `none` in the first component means the loop continues
(this rule allows); `some (false, msg)` is an early denial return.
`b ≠ 0` renders Python truthiness of `record.blocked_until`. -/
def checkRule (rule_name : String) (rule : RateLimitRule) (record : RateLimitRecord)
    (now : ℚ) : Option (Bool × String) × RateLimitRecord :=
  match record.blocked_until with
  | some b =>
    if b ≠ 0 ∧ now < b then
      (some (false, "Rate limit exceeded for " ++ rule_name ++ ". Try again in "
        ++ toString (truncQ (b - now)) ++ " seconds."), record)
    else
      checkCapacity rule_name rule
        (if b ≠ 0 ∧ b ≤ now then { record with blocked_until := none } else record) now
  | none => checkCapacity rule_name rule record now

/-- `record.blocked_until` is set, truthy and still in the future: the state
in which the cooldown gate of `check_rate_limit` fires. -/
def inCooldown (record : RateLimitRecord) (now : ℚ) : Bool :=
  match record.blocked_until with
  | none => false
  | some b => b ≠ 0 ∧ now < b

/-- `EmailRateLimiter._generate_key`: `email_rate:<rule>:<hash16(identifier)>`,
with the truncated sha256 hex digest abstracted as the parameter `h`. -/
def generate_key (h : String → String) (rule_name identifier : String) : String :=
  "email_rate:" ++ rule_name ++ ":" ++ h identifier

/-- The `for rule_name, identifier in checks` loop of
`EmailRateLimiter.check_rate_limit`.  `self.rules[rule_name]` on an
unregistered name raises `KeyError`, modelled as `Except.error`.  Reading
`self._records[key]` inserts the default record (`defaultdict`), so the
record is written back even on the paths that do not change it. -/
def runChecks (rules : List (String × RateLimitRule)) (h : String → String) (now : ℚ) :
    List (String × String) → RLState → Except String ((Bool × String) × RLState)
  | [], st => .ok ((true, "Rate limit check passed"), st)
  | (rule_name, identifier) :: rest, st =>
    match dictGet rules rule_name with
    | none => .error ("KeyError: " ++ rule_name)
    | some rule =>
      let key := generate_key h rule_name identifier
      match checkRule rule_name rule (getRecord st key) now with
      | (some res, record) => .ok (res, dictSet st key record)
      | (none, record) => runChecks rules h now rest (dictSet st key record)

/-- The rule table built in `EmailRateLimiter.__init__`. -/
def emailRules : List (String × RateLimitRule) :=
  [("email_per_address",
    { max_requests := 5, window_seconds := 3600, burst_limit := some 2,
      cooldown_seconds := some 300 }),
   ("email_per_ip",
    { max_requests := 20, window_seconds := 3600, cooldown_seconds := some 600 }),
   ("email_global",
    { max_requests := 100, window_seconds := 3600, cooldown_seconds := some 1800 }),
   ("email_per_user",
    { max_requests := 10, window_seconds := 3600, cooldown_seconds := some 300 })]

/-- The `checks` list assembled by `EmailRateLimiter.check_rate_limit`
(and, identically, the `identifiers` list of `record_email_sent`). -/
def buildChecks (email_address : String) (user_id ip_address : Option String) :
    List (String × String) :=
  [("email_per_address", email_address), ("email_global", "global")]
    ++ (match user_id with | some u => [("email_per_user", u)] | none => [])
    ++ (match ip_address with | some ip => [("email_per_ip", ip)] | none => [])

/-- `EmailRateLimiter.check_rate_limit`. -/
def check_rate_limit (h : String → String) (now : ℚ) (email_address : String)
    (user_id ip_address : Option String) (st : RLState) :
    Except String ((Bool × String) × RLState) :=
  runChecks emailRules h now (buildChecks email_address user_id ip_address) st

/-- One iteration of the loop in `EmailRateLimiter.record_email_sent`:
append `now` to the record at the derived key. -/
def recordOne (h : String → String) (now : ℚ) (rule_name identifier : String)
    (st : RLState) : RLState :=
  let key := generate_key h rule_name identifier
  let record := getRecord st key
  dictSet st key { record with requests := record.requests ++ [now] }

/-- `EmailRateLimiter.record_email_sent`. -/
def record_email_sent (h : String → String) (now : ℚ) (email_address : String)
    (user_id ip_address : Option String) (st : RLState) : RLState :=
  (buildChecks email_address user_id ip_address).foldl
    (fun st p => recordOne h now p.1 p.2 st) st

/-- The rule table built in `APIRateLimiter.__init__`. -/
def apiRules : List (String × RateLimitRule) :=
  [("api_per_ip",
    { max_requests := 100, window_seconds := 3600, burst_limit := some 10,
      cooldown_seconds := some 300 }),
   ("api_per_user",
    { max_requests := 200, window_seconds := 3600, burst_limit := some 20,
      cooldown_seconds := some 300 }),
   ("form_generation_per_user",
    { max_requests := 10, window_seconds := 3600, cooldown_seconds := some 600 }),
   ("form_submission",
    { max_requests := 50, window_seconds := 3600, cooldown_seconds := some 300 })]

/-- Lines 247–261 of `APIRateLimiter.check_and_record`: prune, test capacity,
and append the current time when the request is allowed. -/
def apiCapacity (rule : RateLimitRule) (key : String) (record : RateLimitRecord)
    (now : ℚ) (st : RLState) : (Bool × String) × RLState :=
  let record := cleanup_old_records record rule.window_seconds now
  if rule.max_requests ≤ (record.requests.length : ℤ) then
    let record :=
      if truthyI rule.cooldown_seconds then
        match rule.cooldown_seconds with
        | some c =>
          { record with blocked_until := some (now + (c : ℚ)),
                        total_blocked := record.total_blocked + 1 }
        | none => record
      else record
    ((false, "Rate limit exceeded. Maximum " ++ toString rule.max_requests
      ++ " requests per " ++ toString rule.window_seconds ++ " seconds."),
     dictSet st key record)
  else
    ((true, "Rate limit check passed"),
     dictSet st key { record with requests := record.requests ++ [now] })

/-- `APIRateLimiter.check_and_record`, parametrised by its rule table and by
the truncated sha256 digest `h`.  A rule name absent from the table is
silently treated as allowed (`return True, "No rate limit configured"`);
otherwise the record passes the cooldown gate, expired-block clearing,
window pruning and capacity check, and on success the request is recorded. -/
def check_and_record (rules : List (String × RateLimitRule)) (h : String → String)
    (rule_name identifier : String) (now : ℚ) (st : RLState) :
    (Bool × String) × RLState :=
  match dictGet rules rule_name with
  | none => ((true, "No rate limit configured"), st)
  | some rule =>
    let key := "api_rate:" ++ rule_name ++ ":" ++ h identifier
    let record := getRecord st key
    match record.blocked_until with
    | some b =>
      if b ≠ 0 ∧ now < b then
        ((false, "Rate limit exceeded. Try again in "
          ++ toString (truncQ (b - now)) ++ " seconds."), dictSet st key record)
      else
        apiCapacity rule key
          (if b ≠ 0 ∧ b ≤ now then { record with blocked_until := none } else record) now st
    | none => apiCapacity rule key record now st

/-- The `allowed` component of a check outcome; `none` when the check raised. -/
def allowedOf : Except String ((Bool × String) × RLState) → Option Bool
  | .ok ((b, _), _) => some b
  | .error _ => none

/-- The `reason` component of a check outcome; `none` when the check raised. -/
def reasonOf : Except String ((Bool × String) × RLState) → Option String
  | .ok ((_, s), _) => some s
  | .error _ => none

/-- The registry after a check; an exception leaves the registry as it was. -/
def stateOf (st : RLState) : Except String ((Bool × String) × RLState) → RLState
  | .ok (_, st') => st'
  | .error _ => st

/-- An operation a caller can perform for one `(rule, identifier)` pair:
one run of the `check` loop body, or one `record` append. -/
inductive RLOp where
  | check (t : ℚ)
  | record (t : ℚ)

/-- Apply one operation for `(rule_name, identifier)` to the registry. -/
def applyOp (rules : List (String × RateLimitRule)) (h : String → String)
    (rule_name identifier : String) : RLOp → RLState → RLState
  | .check t, st => stateOf st (runChecks rules h t [(rule_name, identifier)] st)
  | .record t, st => recordOne h t rule_name identifier st

/-- Apply a sequence of operations for `(rule_name, identifier)`. -/
def applyOps (rules : List (String × RateLimitRule)) (h : String → String)
    (rule_name identifier : String) (ops : List RLOp) (st : RLState) : RLState :=
  ops.foldl (fun st op => applyOp rules h rule_name identifier op st) st

/-- One entry of `SimpleCache.cache` (`cache.py`): the dict
`{"data": ..., "expiry": ..., "last_accessed": ...}` built by `set`.
`expiry` is an `Option` because `_is_expired` reads it with
`item.get("expiry")`, which yields `None` when the field is missing. -/
structure CacheItem (α : Type) where
  data : α
  expiry : Option ℚ
  last_accessed : ℚ
  deriving Repr, DecidableEq

/-- `SimpleCache` from `cache.py`: an insertion-ordered dict of entries plus
the construction-time configuration. -/
structure SimpleCache (α : Type) where
  cache : List (String × CacheItem α)
  max_size : ℕ
  ttl_seconds : ℚ
  deriving Repr, DecidableEq

namespace SimpleCache

/-- `SimpleCache._is_expired`: a missing/`None` expiry is *expired*
(`if not expiry: return True`); otherwise expired iff `now > expiry`. -/
def is_expired {α : Type} (item : CacheItem α) (now : ℚ) : Bool :=
  match item.expiry with
  | none => true
  | some e => now > e

/-- `SimpleCache._cleanup_expired`: drop every expired entry. -/
def cleanup_expired {α : Type} (cache : List (String × CacheItem α)) (now : ℚ) :
    List (String × CacheItem α) :=
  cache.filter (fun p => !is_expired p.2 now)

/-- The `min(self.cache.keys(), key=...)` scan of `SimpleCache.set`, seeded
with the first entry: Python's `min` keeps the earliest minimum on ties. -/
def oldestFrom {α : Type} : List (String × CacheItem α) → String → ℚ → String
  | [], k, _ => k
  | (k', it') :: rest, k, a =>
    if it'.last_accessed < a then oldestFrom rest k' it'.last_accessed
    else oldestFrom rest k a

/-- The key `SimpleCache.set` evicts when the store is full: the first key
whose `last_accessed` is minimal.  (On an empty store Python's `min` would
raise `ValueError`; that point is unreachable below because eviction only
happens when `max_size ≤ length`.) -/
def oldestKey {α : Type} : List (String × CacheItem α) → Option String
  | [] => none
  | (k, it) :: rest => some (oldestFrom rest k it.last_accessed)

/-- `SimpleCache.get` (after key derivation): miss on absence; on an expired
entry delete it and miss; on a hit refresh `last_accessed` and return the
data. -/
def get {α : Type} (c : SimpleCache α) (key : String) (now : ℚ) :
    Option α × SimpleCache α :=
  match dictGet c.cache key with
  | none => (none, c)
  | some item =>
    if is_expired item now then (none, { c with cache := dictErase c.cache key })
    else (some item.data,
          { c with cache := dictSet c.cache key ({ item with last_accessed := now }) })

/-- `SimpleCache.set` (after key derivation): sweep expired entries, evict the
least-recently-accessed entry when the store is still at `max_size`, then
write the fresh entry (expiring at `now + ttl_seconds`).  Eviction happens
whether or not `key` itself is already present. -/
def set {α : Type} (c : SimpleCache α) (key : String) (data : α) (now : ℚ) :
    SimpleCache α :=
  let cache := cleanup_expired c.cache now
  let cache :=
    if c.max_size ≤ cache.length then
      match oldestKey cache with
      | some k0 => dictErase cache k0
      | none => cache
    else cache
  let item : CacheItem α :=
    { data := data, expiry := some (now + c.ttl_seconds), last_accessed := now }
  { c with cache := dictSet cache key item }

end SimpleCache

/-- The validity predicate exactly as the specification words it: "an entry is
considered valid iff `expires_at` is null or `now <= expires_at`". -/
def specValidEntry {α : Type} (item : CacheItem α) (now : ℚ) : Prop :=
  item.expiry = none ∨ ∃ e, item.expiry = some e ∧ now ≤ e

/-- One entry of `MemoryCache._cache` (`memory_cache.py`).  The stored
`expires_at` field is doubly optional: the outer `none` models a dict that
lacks the `'expires_at'` key (`_is_expired` tests `'expires_at' not in item`),
the inner `none` models a stored Python `None` (written by `set` when
`ttl <= 0`), which `_is_expired` then compares against a float, raising
`TypeError`. -/
structure MCItem (α : Type) where
  value : α
  expires_at : Option (Option ℚ)
  created_at : ℚ
  deriving Repr, DecidableEq

/-- `MemoryCache` from `memory_cache.py`. -/
structure MemoryCache (α : Type) where
  cache : List (String × MCItem α)
  enabled : Bool
  deriving Repr, DecidableEq

namespace MemoryCache

/-- `MemoryCache._is_expired`: an item without the `'expires_at'` key is not
expired; `time.time() > None` raises `TypeError` (`Except.error`); otherwise
expired iff `now > expires_at`. -/
def is_expired {α : Type} (item : MCItem α) (now : ℚ) : Except Unit Bool :=
  match item.expires_at with
  | none => .ok false
  | some none => .error ()
  | some (some e) => .ok (now > e)

/-- `MemoryCache._cleanup_expired`: the list comprehension evaluates the same
test as `_is_expired` on every entry; a `TypeError` aborts it before any
deletion happens. -/
def cleanup_expired {α : Type} : List (String × MCItem α) → ℚ →
    Except Unit (List (String × MCItem α))
  | [], _ => .ok []
  | (k, it) :: rest, now =>
    match is_expired it now with
    | .error e => .error e
    | .ok b =>
      match cleanup_expired rest now with
      | .error e => .error e
      | .ok r => .ok (if b then r else (k, it) :: r)

/-- `MemoryCache.get`: miss when disabled or absent; a `TypeError` from
`_is_expired` is caught by the `except` handler, which returns `None`
without deleting anything; an expired entry is deleted lazily. -/
def get {α : Type} (c : MemoryCache α) (key : String) (now : ℚ) :
    Option α × MemoryCache α :=
  if c.enabled then
    match dictGet c.cache key with
    | none => (none, c)
    | some item =>
      match is_expired item now with
      | .error _ => (none, c)
      | .ok true => (none, { c with cache := dictErase c.cache key })
      | .ok false => (some item.value, c)
  else (none, c)

/-- `MemoryCache.set`: when disabled return `False`; run the periodic sweep
only when the current size is a multiple of 100; a `TypeError` raised by the
sweep is caught by the `except` handler, which returns `False` with nothing
stored; otherwise store the entry — with `expires_at = None` when
`ttl <= 0` — and return `True`. -/
def set {α : Type} (c : MemoryCache α) (key : String) (value : α) (ttl : ℤ)
    (now : ℚ) : Bool × MemoryCache α :=
  if c.enabled then
    match (if c.cache.length % 100 = 0 then cleanup_expired c.cache now
           else .ok c.cache) with
    | .error _ => (false, c)
    | .ok cache =>
      let item : MCItem α :=
        { value := value,
          expires_at := some (if 0 < ttl then some (now + (ttl : ℚ)) else none),
          created_at := now }
      (true, { c with cache := dictSet cache key item })
  else (false, c)

end MemoryCache

/-- A live `MemoryCache` entry: value 7, expiring far in the future. -/
def mcLiveItem : MCItem ℕ := ⟨7, some (some 1000000), 0⟩

/-- An entry as stored by `MemoryCache.set` with `ttl ≤ 0`: its `expires_at`
is Python `None`. -/
def mcNoneItem : MCItem ℕ := ⟨1, some none, 0⟩

/-- A reachable 100-entry `_cache` state: key "k" holds a live entry, "z"
holds a `None`-expiry entry (stored earlier by a `set` with `ttl ≤ 0`), and
98 filler keys hold live entries.  Its size is a multiple of 100, so the
next `set` runs the periodic sweep. -/
def mcFullState : List (String × MCItem ℕ) :=
  ("k", mcLiveItem) :: ("z", mcNoneItem) ::
    (List.range 98).map (fun i => ("f" ++ toString i, mcLiveItem))

/-- The `MemoryCache` over `mcFullState`. -/
def mcFullCache : MemoryCache ℕ := ⟨mcFullState, true⟩

/-! ### Association-list (Python dict) lemmas -/

theorem dictGet_dictSet_self {β : Type} (l : List (String × β)) (k : String) (v : β) :
    dictGet (dictSet l k v) k = some v := by
  induction l with
  | nil => simp [dictGet, dictSet]
  | cons p rest ih =>
    obtain ⟨k', v'⟩ := p
    by_cases hk : k' = k
    · simp [dictSet, hk, dictGet]
    · simp [dictSet, hk, dictGet, ih]

theorem dictGet_dictSet_ne {β : Type} (l : List (String × β)) (k k' : String) (v : β)
    (h : k' ≠ k) : dictGet (dictSet l k v) k' = dictGet l k' := by
  induction l with
  | nil => simp [dictGet, dictSet, Ne.symm h]
  | cons p rest ih =>
    obtain ⟨k'', v''⟩ := p
    by_cases hk : k'' = k
    · subst hk
      simp [dictSet, dictGet, Ne.symm h]
    · simp only [dictSet, if_neg hk]
      by_cases hk' : k'' = k'
      · simp [dictGet, hk']
      · simp [dictGet, hk', ih]

theorem dictGet_mem {β : Type} {l : List (String × β)} {k : String} {v : β}
    (h : dictGet l k = some v) : (k, v) ∈ l := by
  induction l with
  | nil => simp [dictGet] at h
  | cons p rest ih =>
    obtain ⟨k', v'⟩ := p
    by_cases hk : k' = k
    · subst hk
      simp [dictGet] at h
      simp [h]
    · simp [dictGet, hk] at h
      simp [ih h]

theorem mem_dictGet_of_nodup {β : Type} {l : List (String × β)}
    (hnd : (l.map Prod.fst).Nodup) {k : String} {v : β} (h : (k, v) ∈ l) :
    dictGet l k = some v := by
  induction l with
  | nil => simp at h
  | cons p rest ih =>
    obtain ⟨k', v'⟩ := p
    simp only [List.map_cons, List.nodup_cons] at hnd
    rcases List.mem_cons.mp h with h1 | h2
    · obtain ⟨hk, hv⟩ := Prod.mk.injEq .. ▸ h1
      simp [dictGet, hk.symm, hv]
    · have hk : k' ≠ k := by
        intro hkk
        subst hkk
        exact hnd.1 (List.mem_map.mpr ⟨(k', v), h2, rfl⟩)
      simp [dictGet, hk, ih hnd.2 h2]

theorem dictGet_dictErase_ne {β : Type} (l : List (String × β)) (k k' : String)
    (h : k' ≠ k) : dictGet (dictErase l k) k' = dictGet l k' := by
  induction l with
  | nil => simp [dictErase]
  | cons p rest ih =>
    obtain ⟨k'', v''⟩ := p
    by_cases hk : k'' = k
    · subst hk
      simp [dictErase, dictGet, Ne.symm h]
    · by_cases hk' : k'' = k'
      · subst hk'
        simp [dictErase, hk, dictGet]
      · simp [dictErase, hk, dictGet, hk', ih]

theorem dictGet_dictErase_self {β : Type} {l : List (String × β)}
    (hnd : (l.map Prod.fst).Nodup) (k : String) :
    dictGet (dictErase l k) k = none := by
  induction l with
  | nil => simp [dictErase, dictGet]
  | cons p rest ih =>
    obtain ⟨k', v'⟩ := p
    simp only [List.map_cons, List.nodup_cons] at hnd
    by_cases hk : k' = k
    · subst hk
      have he : dictErase ((k', v') :: rest) k' = rest := by simp [dictErase]
      rw [he]
      cases hg : dictGet rest k' with
      | none => rfl
      | some w => exact absurd (List.mem_map.mpr ⟨(k', w), dictGet_mem hg, rfl⟩) hnd.1
    · simp [dictErase, hk, dictGet, ih hnd.2]

theorem dictSet_eq_self {β : Type} {l : List (String × β)} {k : String} {v : β}
    (h : dictGet l k = some v) : dictSet l k v = l := by
  induction l with
  | nil => simp [dictGet] at h
  | cons p rest ih =>
    obtain ⟨k', v'⟩ := p
    by_cases hk : k' = k
    · subst hk
      simp [dictGet] at h
      simp [dictSet, h]
    · simp [dictGet, hk] at h
      simp [dictSet, hk, ih h]

theorem length_dictSet_of_none {β : Type} {l : List (String × β)} {k : String}
    (h : dictGet l k = none) (v : β) : (dictSet l k v).length = l.length + 1 := by
  induction l with
  | nil => simp [dictSet]
  | cons p rest ih =>
    obtain ⟨k', v'⟩ := p
    by_cases hk : k' = k
    · simp [dictGet, hk] at h
    · simp [dictGet, hk] at h
      simp [dictSet, hk, ih h]

theorem length_dictErase_of_some {β : Type} {l : List (String × β)} {k : String} {v : β}
    (h : dictGet l k = some v) : l.length = (dictErase l k).length + 1 := by
  induction l with
  | nil => simp [dictGet] at h
  | cons p rest ih =>
    obtain ⟨k', v'⟩ := p
    by_cases hk : k' = k
    · simp [dictErase, hk]
    · simp [dictGet, hk] at h
      simp [dictErase, hk, ih h]

theorem getRecord_dictSet_self (st : RLState) (k : String) (r : RateLimitRecord) :
    getRecord (dictSet st k r) k = r := by
  simp [getRecord, dictGet_dictSet_self]

theorem getRecord_dictSet_ne (st : RLState) (k k' : String) (r : RateLimitRecord)
    (h : k' ≠ k) : getRecord (dictSet st k r) k' = getRecord st k' := by
  simp [getRecord, dictGet_dictSet_ne _ _ _ _ h]

/-! ### Branch lemmas for the rate-limiter check -/

theorem checkCapacity_full_fst (rule_name : String) (rule : RateLimitRule)
    (record : RateLimitRecord) (now : ℚ)
    (hcap : rule.max_requests ≤
      (((record.requests.filter (fun t => now - (rule.window_seconds : ℚ) < t)).length : ℤ))) :
    (checkCapacity rule_name rule record now).1 =
      some (false, "Rate limit exceeded for " ++ rule_name ++ ". Maximum "
        ++ toString rule.max_requests ++ " requests per "
        ++ toString rule.window_seconds ++ " seconds.") := by
  simp [checkCapacity, cleanup_old_records, hcap]

theorem checkCapacity_full_blocked (rule_name : String) (rule : RateLimitRule)
    (record : RateLimitRecord) (now : ℚ) (c : ℤ)
    (hcool : rule.cooldown_seconds = some c) (hc : c ≠ 0)
    (hcap : rule.max_requests ≤
      (((record.requests.filter (fun t => now - (rule.window_seconds : ℚ) < t)).length : ℤ))) :
    (checkCapacity rule_name rule record now).2.blocked_until = some (now + (c : ℚ)) := by
  simp [checkCapacity, cleanup_old_records, hcap, truthyI, hcool, hc]

theorem checkCapacity_not_full (rule_name : String) (rule : RateLimitRule)
    (record : RateLimitRecord) (now : ℚ)
    (hcap : ¬ rule.max_requests ≤
      (((record.requests.filter (fun t => now - (rule.window_seconds : ℚ) < t)).length : ℤ))) :
    checkCapacity rule_name rule record now =
      (none, cleanup_old_records record rule.window_seconds now) := by
  simp [checkCapacity, cleanup_old_records, hcap]

theorem checkRule_blocked (rule_name : String) (rule : RateLimitRule)
    (record : RateLimitRecord) (now : ℚ) (b : ℚ)
    (hb : record.blocked_until = some b) (hb0 : b ≠ 0) (hlt : now < b) :
    checkRule rule_name rule record now =
      (some (false, "Rate limit exceeded for " ++ rule_name ++ ". Try again in "
        ++ toString (truncQ (b - now)) ++ " seconds."), record) := by
  simp [checkRule, hb, hb0, hlt]

theorem checkRule_not_blocked (rule_name : String) (rule : RateLimitRule)
    (record : RateLimitRecord) (now : ℚ)
    (h : inCooldown record now = false) :
    ∃ rec', checkRule rule_name rule record now = checkCapacity rule_name rule rec' now ∧
      rec'.requests = record.requests := by
  cases hbu : record.blocked_until with
  | none =>
    refine ⟨record, ?_, rfl⟩
    simp [checkRule, hbu]
  | some b =>
    have hnb : ¬ (b ≠ 0 ∧ now < b) := by
      simp only [inCooldown, hbu] at h
      simpa using h
    by_cases hcl : b ≠ 0 ∧ b ≤ now
    · refine ⟨{ record with blocked_until := none }, ?_, rfl⟩
      simp [checkRule, hbu, hnb, hcl]
    · refine ⟨record, ?_, rfl⟩
      simp [checkRule, hbu, hnb, hcl]

theorem runChecks_singleton_ok (rules : List (String × RateLimitRule)) (h : String → String)
    (now : ℚ) (rule_name identifier : String) (rule : RateLimitRule) (st : RLState)
    (hrule : dictGet rules rule_name = some rule) :
    runChecks rules h now [(rule_name, identifier)] st =
      (match checkRule rule_name rule (getRecord st (generate_key h rule_name identifier)) now with
       | (some res, record) =>
           .ok (res, dictSet st (generate_key h rule_name identifier) record)
       | (none, record) =>
           .ok ((true, "Rate limit check passed"),
                dictSet st (generate_key h rule_name identifier) record)) := by
  rcases hcr : checkRule rule_name rule (getRecord st (generate_key h rule_name identifier)) now
    with ⟨o, record⟩
  cases o <;> simp [runChecks, hrule, hcr]

/-- **C1** (sliding-window correctness).  For any rule table binding
`rule_name` to a rule with `max_requests = N` and `window_seconds = W`, and
an identifier whose record has no active cooldown: (a) if at least `N` of
the recorded timestamps lie within the last `W` seconds of `now` (strictly
newer than `now - W`, the cutoff `_cleanup_old_records` uses), the check for
that identifier returns `allowed = false`; (b) if every recorded timestamp
is at most `now - W` and `N > 0`, the pruning pass removes them all, the
check returns `allowed = true`, and the stored record is left with an empty
request list. -/
theorem checkRateLimit_sliding_window
    (rules : List (String × RateLimitRule)) (h : String → String)
    (rule_name identifier : String) (rule : RateLimitRule) (st : RLState) (now : ℚ)
    (hrule : dictGet rules rule_name = some rule)
    (hcd : inCooldown (getRecord st (generate_key h rule_name identifier)) now = false) :
    (rule.max_requests ≤
        ((((getRecord st (generate_key h rule_name identifier)).requests.filter
            (fun t => now - (rule.window_seconds : ℚ) < t)).length : ℤ)) →
      allowedOf (runChecks rules h now [(rule_name, identifier)] st) = some false) ∧
    ((∀ t ∈ (getRecord st (generate_key h rule_name identifier)).requests,
        t ≤ now - (rule.window_seconds : ℚ)) → 0 < rule.max_requests →
      allowedOf (runChecks rules h now [(rule_name, identifier)] st) = some true ∧
      (getRecord (stateOf st (runChecks rules h now [(rule_name, identifier)] st))
          (generate_key h rule_name identifier)).requests = []) := by
  obtain ⟨rec', heq, hreq⟩ :=
    checkRule_not_blocked rule_name rule (getRecord st (generate_key h rule_name identifier))
      now hcd
  rw [runChecks_singleton_ok rules h now rule_name identifier rule st hrule, heq]
  constructor
  · intro hcap
    have hcap' : rule.max_requests ≤
        ((rec'.requests.filter (fun t => now - (rule.window_seconds : ℚ) < t)).length : ℤ) := by
      rw [hreq]; exact hcap
    have hfst := checkCapacity_full_fst rule_name rule rec' now hcap'
    rcases hcc : checkCapacity rule_name rule rec' now with ⟨o, rec2⟩
    rw [hcc] at hfst
    simp only at hfst
    rw [hfst]
    simp [allowedOf]
  · intro hall hpos
    have hfil : rec'.requests.filter (fun t => now - (rule.window_seconds : ℚ) < t) = [] := by
      rw [hreq]
      refine List.filter_eq_nil_iff.mpr ?_
      intro a ha
      simpa using not_lt.mpr (hall a ha)
    have hncap : ¬ rule.max_requests ≤
        ((rec'.requests.filter (fun t => now - (rule.window_seconds : ℚ) < t)).length : ℤ) := by
      rw [hfil]
      simpa using not_le.mpr hpos
    rw [checkCapacity_not_full rule_name rule rec' now hncap]
    constructor
    · simp [allowedOf]
    · simp [stateOf, getRecord_dictSet_self, cleanup_old_records, hfil]

/-- Witness for C1 at a concrete input: rule `max_requests = 2`,
`window_seconds = 10`; two requests at 95 and 99 deny a check at time 100,
while two requests at 80 and 85 are pruned and the check is allowed. -/
theorem checkRateLimit_sliding_window_witness :
    allowedOf (runChecks [("r", ⟨2, 10, none, some 5⟩)] (fun s => s) 100 [("r", "a")]
      [("email_rate:r:a", ⟨[95, 99], none, 0⟩)]) = some false ∧
    allowedOf (runChecks [("r", ⟨2, 10, none, some 5⟩)] (fun s => s) 100 [("r", "a")]
      [("email_rate:r:a", ⟨[80, 85], none, 0⟩)]) = some true := by
  have hk : generate_key (fun s : String => s) "r" "a" = "email_rate:r:a" := rfl
  constructor
  · refine (checkRateLimit_sliding_window [("r", ⟨2, 10, none, some 5⟩)] (fun s => s) "r" "a"
      ⟨2, 10, none, some 5⟩ [("email_rate:r:a", ⟨[95, 99], none, 0⟩)] 100 rfl rfl).1 ?_
    rw [hk]
    norm_num [getRecord, dictGet, List.filter]
  · refine ((checkRateLimit_sliding_window [("r", ⟨2, 10, none, some 5⟩)] (fun s => s) "r" "a"
      ⟨2, 10, none, some 5⟩ [("email_rate:r:a", ⟨[80, 85], none, 0⟩)] 100 rfl rfl).2 ?_
      (by norm_num)).1
    rw [hk]
    norm_num [getRecord, dictGet]

/-- **C2** (cooldown overrides the window).  With a configured (positive)
cooldown, a denied check at capacity at time `now` stores
`blocked_until = now + cooldown_seconds`; any later check at a time `t1`
strictly before `blocked_until` is denied — whatever the pruned window would
contain, since the cooldown gate fires before pruning — and it leaves the
registry unchanged, so the denial repeats for every check before
`blocked_until`.  `0 ≤ now` reflects that `time.time()` is nonnegative
(making `blocked_until` truthy). -/
theorem checkRateLimit_cooldown_overrides_window
    (rules : List (String × RateLimitRule)) (h : String → String)
    (rule_name identifier : String) (rule : RateLimitRule) (st st' : RLState)
    (now t1 : ℚ) (c : ℤ)
    (hrule : dictGet rules rule_name = some rule)
    (hcool : rule.cooldown_seconds = some c) (hc : 0 < c) (hnow : 0 ≤ now)
    (hcd : inCooldown (getRecord st (generate_key h rule_name identifier)) now = false)
    (hcap : rule.max_requests ≤
      ((((getRecord st (generate_key h rule_name identifier)).requests.filter
          (fun t => now - (rule.window_seconds : ℚ) < t)).length : ℤ)))
    (hst' : stateOf st (runChecks rules h now [(rule_name, identifier)] st) = st')
    (ht1 : t1 < now + (c : ℚ)) :
    allowedOf (runChecks rules h now [(rule_name, identifier)] st) = some false ∧
    (getRecord st' (generate_key h rule_name identifier)).blocked_until = some (now + (c : ℚ)) ∧
    allowedOf (runChecks rules h t1 [(rule_name, identifier)] st') = some false ∧
    stateOf st' (runChecks rules h t1 [(rule_name, identifier)] st') = st' := by
  subst hst'
  obtain ⟨rec', heq, hreq⟩ :=
    checkRule_not_blocked rule_name rule (getRecord st (generate_key h rule_name identifier))
      now hcd
  have hcap' : rule.max_requests ≤
      ((rec'.requests.filter (fun t => now - (rule.window_seconds : ℚ) < t)).length : ℤ) := by
    rw [hreq]; exact hcap
  have hfst := checkCapacity_full_fst rule_name rule rec' now hcap'
  have hblk := checkCapacity_full_blocked rule_name rule rec' now c hcool hc.ne' hcap'
  rcases hcc : checkCapacity rule_name rule rec' now with ⟨o, rec2⟩
  rw [hcc] at hfst hblk
  dsimp only at hfst hblk
  have hrun : runChecks rules h now [(rule_name, identifier)] st =
      .ok ((false, "Rate limit exceeded for " ++ rule_name ++ ". Maximum "
        ++ toString rule.max_requests ++ " requests per "
        ++ toString rule.window_seconds ++ " seconds."),
        dictSet st (generate_key h rule_name identifier) rec2) := by
    rw [runChecks_singleton_ok rules h now rule_name identifier rule st hrule, heq, hcc, hfst]
  have hgets : getRecord (dictSet st (generate_key h rule_name identifier) rec2)
      (generate_key h rule_name identifier) = rec2 :=
    getRecord_dictSet_self st _ rec2
  have hb0 : (now + (c : ℚ)) ≠ 0 := by
    have hcq : (0 : ℚ) < (c : ℚ) := by exact_mod_cast hc
    have : (0 : ℚ) < now + (c : ℚ) := by linarith
    exact this.ne'
  have hcr2 := checkRule_blocked rule_name rule rec2 t1 (now + (c : ℚ)) hblk hb0 ht1
  have hrun2 : runChecks rules h t1 [(rule_name, identifier)]
      (dictSet st (generate_key h rule_name identifier) rec2) =
      .ok ((false, "Rate limit exceeded for " ++ rule_name ++ ". Try again in "
        ++ toString (truncQ (now + (c : ℚ) - t1)) ++ " seconds."),
        dictSet (dictSet st (generate_key h rule_name identifier) rec2)
          (generate_key h rule_name identifier) rec2) := by
    rw [runChecks_singleton_ok rules h t1 rule_name identifier rule _ hrule, hgets, hcr2]
  refine ⟨?_, ?_, ?_, ?_⟩
  · rw [hrun]
    simp [allowedOf]
  · rw [hrun]
    simpa [stateOf, hgets] using hblk
  · rw [hrun]
    simp only [stateOf]
    rw [hrun2]
    simp [allowedOf]
  · rw [hrun]
    simp only [stateOf]
    rw [hrun2]
    simp only [stateOf]
    exact dictSet_eq_self (dictGet_dictSet_self st _ rec2)

/-- Witness for C2 at a concrete input: two requests at 95 and 99 against a
rule with `max_requests = 2`, `window_seconds = 10`, `cooldown_seconds = 5`;
the check at time 100 is denied and triggers the cooldown, and the check at
time 103 (before `blocked_until = 105`) is denied again. -/
theorem checkRateLimit_cooldown_overrides_window_witness :
    allowedOf (runChecks [("r", ⟨2, 10, none, some 5⟩)] (fun s => s) 100 [("r", "a")]
      [("email_rate:r:a", ⟨[95, 99], none, 0⟩)]) = some false ∧
    allowedOf (runChecks [("r", ⟨2, 10, none, some 5⟩)] (fun s => s) 103 [("r", "a")]
      (stateOf [("email_rate:r:a", ⟨[95, 99], none, 0⟩)]
        (runChecks [("r", ⟨2, 10, none, some 5⟩)] (fun s => s) 100 [("r", "a")]
          [("email_rate:r:a", ⟨[95, 99], none, 0⟩)]))) = some false := by
  have hk : generate_key (fun s : String => s) "r" "a" = "email_rate:r:a" := rfl
  have hmain := checkRateLimit_cooldown_overrides_window [("r", ⟨2, 10, none, some 5⟩)]
    (fun s => s) "r" "a" ⟨2, 10, none, some 5⟩ [("email_rate:r:a", ⟨[95, 99], none, 0⟩)]
    (stateOf [("email_rate:r:a", ⟨[95, 99], none, 0⟩)]
      (runChecks [("r", ⟨2, 10, none, some 5⟩)] (fun s => s) 100 [("r", "a")]
        [("email_rate:r:a", ⟨[95, 99], none, 0⟩)]))
    100 103 5 rfl rfl (by norm_num) (by norm_num) rfl
    (by rw [hk]; norm_num [getRecord, dictGet, List.filter]) rfl (by norm_num)
  exact ⟨hmain.1, hmain.2.2.1⟩

/-- **C3 counterexample**: the rule name `"unknown_rule"` is not registered in
`APIRateLimiter`'s rule table, yet `check_and_record` does not raise — it
silently returns `allowed = true` with reason "No rate limit configured"
and leaves the registry unchanged, refuting the claim that an unknown rule
name always fails loudly and is never silently treated as allowed. -/
theorem apiRateLimiter_unknown_rule_counterexample :
    dictGet apiRules "unknown_rule" = none ∧
    check_and_record apiRules (fun s => s) "unknown_rule" "203.0.113.7" 1000 [] =
      ((true, "No rate limit configured"), []) :=
  ⟨rfl, rfl⟩

/-- **C3 amended**: an unregistered rule name raises `KeyError` in the
`EmailRateLimiter.check_rate_limit` loop (where `self.rules[rule_name]` is a
bare dict subscript), but `APIRateLimiter.check_and_record` silently treats
it as allowed, returning `(true, "No rate limit configured")` with the
registry unchanged. -/
theorem rateLimiter_unknown_rule_behavior
    (rules : List (String × RateLimitRule)) (h : String → String)
    (rule_name identifier : String) (now : ℚ) (st : RLState)
    (hrule : dictGet rules rule_name = none) :
    check_and_record rules h rule_name identifier now st =
      ((true, "No rate limit configured"), st) ∧
    runChecks rules h now [(rule_name, identifier)] st =
      .error ("KeyError: " ++ rule_name) := by
  constructor
  · simp [check_and_record, hrule]
  · simp [runChecks, hrule]

/-- Witness for the amended C3 at concrete inputs: the rule name `"nope"` is
in neither rule table; the API limiter silently allows, the email limiter's
loop raises. -/
theorem rateLimiter_unknown_rule_behavior_witness :
    check_and_record apiRules (fun s => s) "nope" "1.2.3.4" 50 [] =
      ((true, "No rate limit configured"), []) ∧
    runChecks emailRules (fun s => s) 50 [("nope", "1.2.3.4")] [] =
      .error ("KeyError: " ++ "nope") :=
  ⟨(rateLimiter_unknown_rule_behavior apiRules (fun s => s) "nope" "1.2.3.4" 50 [] rfl).1,
   (rateLimiter_unknown_rule_behavior emailRules (fun s => s) "nope" "1.2.3.4" 50 [] rfl).2⟩

/-- **C4** (clearing an expired cooldown does not bypass window pruning).
When a check occurs at `now` at or after a truthy `blocked_until`, the
cooldown gate does not fire; the block is cleared, the window pruned, and if
the pruned request list still holds at least `max_requests` entries the
check returns `allowed = false` with the capacity message (not the cooldown
message). -/
theorem checkRateLimit_expired_cooldown_no_bypass
    (rules : List (String × RateLimitRule)) (h : String → String)
    (rule_name identifier : String) (rule : RateLimitRule) (st : RLState) (now b : ℚ)
    (hrule : dictGet rules rule_name = some rule)
    (hb : (getRecord st (generate_key h rule_name identifier)).blocked_until = some b)
    (hb0 : b ≠ 0) (hble : b ≤ now)
    (hcap : rule.max_requests ≤
      ((((getRecord st (generate_key h rule_name identifier)).requests.filter
          (fun t => now - (rule.window_seconds : ℚ) < t)).length : ℤ))) :
    allowedOf (runChecks rules h now [(rule_name, identifier)] st) = some false ∧
    reasonOf (runChecks rules h now [(rule_name, identifier)] st) =
      some ("Rate limit exceeded for " ++ rule_name ++ ". Maximum "
        ++ toString rule.max_requests ++ " requests per "
        ++ toString rule.window_seconds ++ " seconds.") := by
  have hcd : inCooldown (getRecord st (generate_key h rule_name identifier)) now = false := by
    simp only [inCooldown, hb, decide_eq_false_iff_not]
    rintro ⟨-, hlt⟩
    exact absurd hlt (not_lt.mpr hble)
  obtain ⟨rec', heq, hreq⟩ :=
    checkRule_not_blocked rule_name rule (getRecord st (generate_key h rule_name identifier))
      now hcd
  have hcap' : rule.max_requests ≤
      ((rec'.requests.filter (fun t => now - (rule.window_seconds : ℚ) < t)).length : ℤ) := by
    rw [hreq]; exact hcap
  have hfst := checkCapacity_full_fst rule_name rule rec' now hcap'
  rcases hcc : checkCapacity rule_name rule rec' now with ⟨o, rec2⟩
  rw [hcc] at hfst
  dsimp only at hfst
  rw [runChecks_singleton_ok rules h now rule_name identifier rule st hrule, heq, hcc, hfst]
  exact ⟨by simp [allowedOf], by simp [reasonOf]⟩

/-- Witness for C4 at the claim's example: rule
`{max_requests := 3, window_seconds := 60, cooldown_seconds := 30}` with
three requests recorded at time 69 and a cooldown that expired at 99: the
check at time 100 (cooldown elapsed, but the three requests are only 31
seconds old in a 60-second window) is still denied, with the capacity
message. -/
theorem checkRateLimit_expired_cooldown_no_bypass_witness :
    allowedOf (runChecks [("r", ⟨3, 60, none, some 30⟩)] (fun s => s) 100 [("r", "a")]
      [("email_rate:r:a", ⟨[69, 69, 69], some 99, 1⟩)]) = some false ∧
    reasonOf (runChecks [("r", ⟨3, 60, none, some 30⟩)] (fun s => s) 100 [("r", "a")]
      [("email_rate:r:a", ⟨[69, 69, 69], some 99, 1⟩)]) =
      some ("Rate limit exceeded for " ++ "r" ++ ". Maximum "
        ++ toString (3 : ℤ) ++ " requests per " ++ toString (60 : ℤ) ++ " seconds.") := by
  have hk : generate_key (fun s : String => s) "r" "a" = "email_rate:r:a" := rfl
  exact checkRateLimit_expired_cooldown_no_bypass [("r", ⟨3, 60, none, some 30⟩)]
    (fun s => s) "r" "a" ⟨3, 60, none, some 30⟩
    [("email_rate:r:a", ⟨[69, 69, 69], some 99, 1⟩)] 100 99 rfl rfl
    (by norm_num) (by norm_num)
    (by rw [hk]; norm_num [getRecord, dictGet, List.filter])

theorem checkCapacity_snd_requests (rule_name : String) (rule : RateLimitRule)
    (record : RateLimitRecord) (now : ℚ) :
    (checkCapacity rule_name rule record now).2.requests =
      record.requests.filter (fun t => now - (rule.window_seconds : ℚ) < t) := by
  simp only [checkCapacity, cleanup_old_records]
  repeat' split
  all_goals rfl

theorem checkRule_requests_sublist (rule_name : String) (rule : RateLimitRule)
    (record : RateLimitRecord) (now : ℚ) :
    ((checkRule rule_name rule record now).2.requests).Sublist record.requests := by
  by_cases hcd : inCooldown record now = true
  · obtain ⟨b, hb, hb0, hlt⟩ : ∃ b, record.blocked_until = some b ∧ b ≠ 0 ∧ now < b := by
      cases hbu : record.blocked_until with
      | none => rw [inCooldown, hbu] at hcd; simp at hcd
      | some b =>
        rw [inCooldown, hbu] at hcd
        simp at hcd
        exact ⟨b, rfl, hcd.1, hcd.2⟩
    rw [checkRule_blocked rule_name rule record now b hb hb0 hlt]
  · obtain ⟨rec', heq, hreq⟩ :=
      checkRule_not_blocked rule_name rule record now (eq_false_of_ne_true hcd)
    rw [heq, checkCapacity_snd_requests, hreq]
    exact List.filter_sublist record.requests

/-- **C5** (check never appends).  Whatever the outcome — allowed, denied at
capacity, or denied in cooldown — a run of the `check_rate_limit` loop never
adds a timestamp to any record: each record's `requests` list after the call
is a sublist (a pruning) of what it was before.  Appending is done only by
the separate `record_email_sent` step. -/
theorem checkRateLimit_never_appends
    (rules : List (String × RateLimitRule)) (h : String → String) (now : ℚ)
    (checks : List (String × String)) (st : RLState)
    (res : Bool × String) (st' : RLState)
    (hrun : runChecks rules h now checks st = .ok (res, st')) :
    ∀ k, ((getRecord st' k).requests).Sublist (getRecord st k).requests := by
  induction checks generalizing st with
  | nil =>
    simp only [runChecks, Except.ok.injEq, Prod.mk.injEq] at hrun
    intro k
    rw [← hrun.2]
  | cons p rest ih =>
    obtain ⟨rule_name, identifier⟩ := p
    rcases hr : dictGet rules rule_name with _ | rule
    · simp [runChecks, hr] at hrun
    · rcases hcr : checkRule rule_name rule
        (getRecord st (generate_key h rule_name identifier)) now with ⟨o, record⟩
      have hstep : ∀ k, ((getRecord
          (dictSet st (generate_key h rule_name identifier) record) k).requests).Sublist
          (getRecord st k).requests := by
        intro k
        by_cases hk : k = generate_key h rule_name identifier
        · subst hk
          rw [getRecord_dictSet_self]
          have := checkRule_requests_sublist rule_name rule
            (getRecord st (generate_key h rule_name identifier)) now
          rwa [hcr] at this
        · rw [getRecord_dictSet_ne st _ k record hk]
      cases o with
      | some r' =>
        simp only [runChecks, hr, hcr, Except.ok.injEq, Prod.mk.injEq] at hrun
        intro k
        rw [← hrun.2]
        exact hstep k
      | none =>
        simp only [runChecks, hr, hcr] at hrun
        intro k
        exact (ih _ hrun k).trans (hstep k)

/-- Witness for C5 at a concrete input: a check run on an empty registry for
one rule leaves the (freshly created) record's request list a sublist of the
(empty) one it started from. -/
theorem checkRateLimit_never_appends_witness :
    ((getRecord [("email_rate:r:a", ⟨[], none, 0⟩)] "email_rate:r:a").requests).Sublist
      ((getRecord ([] : RLState) "email_rate:r:a").requests) :=
  checkRateLimit_never_appends [("r", ⟨2, 10, none, some 5⟩)] (fun s => s) 100 [("r", "a")]
    [] (true, "Rate limit check passed") [("email_rate:r:a", ⟨[], none, 0⟩)] rfl
    "email_rate:r:a"

theorem applyOp_preserves (rules : List (String × RateLimitRule)) (h : String → String)
    (rule_name idA : String) (kB : String)
    (hk : generate_key h rule_name idA ≠ kB) (op : RLOp) (st : RLState) :
    getRecord (applyOp rules h rule_name idA op st) kB = getRecord st kB := by
  cases op with
  | record t =>
    simp only [applyOp, recordOne]
    exact getRecord_dictSet_ne st _ kB _ (Ne.symm hk)
  | check t =>
    rcases hr : dictGet rules rule_name with _ | rule
    · simp [applyOp, runChecks, hr, stateOf]
    · rcases hcr : checkRule rule_name rule
        (getRecord st (generate_key h rule_name idA)) t with ⟨o, record⟩
      cases o with
      | some r' =>
        simp only [applyOp, runChecks, hr, hcr, stateOf]
        exact getRecord_dictSet_ne st _ kB _ (Ne.symm hk)
      | none =>
        simp only [applyOp, runChecks, hr, hcr, stateOf]
        exact getRecord_dictSet_ne st _ kB _ (Ne.symm hk)

theorem applyOps_preserves (rules : List (String × RateLimitRule)) (h : String → String)
    (rule_name idA : String) (kB : String)
    (hk : generate_key h rule_name idA ≠ kB) (ops : List RLOp) :
    ∀ st : RLState, getRecord (applyOps rules h rule_name idA ops st) kB = getRecord st kB := by
  induction ops with
  | nil => intro st; simp [applyOps]
  | cons op rest ih =>
    intro st
    have hfold : applyOps rules h rule_name idA (op :: rest) st =
        applyOps rules h rule_name idA rest (applyOp rules h rule_name idA op st) := rfl
    rw [hfold, ih, applyOp_preserves rules h rule_name idA kB hk]

theorem runChecks_singleton_allowed_congr (rules : List (String × RateLimitRule))
    (h : String → String) (t : ℚ) (rule_name identifier : String) (st1 st2 : RLState)
    (hrec : getRecord st1 (generate_key h rule_name identifier) =
            getRecord st2 (generate_key h rule_name identifier)) :
    allowedOf (runChecks rules h t [(rule_name, identifier)] st1) =
    allowedOf (runChecks rules h t [(rule_name, identifier)] st2) := by
  rcases hr : dictGet rules rule_name with _ | rule
  · simp [runChecks, hr, allowedOf]
  · rw [runChecks_singleton_ok rules h t rule_name identifier rule st1 hr,
        runChecks_singleton_ok rules h t rule_name identifier rule st2 hr, hrec]
    rcases checkRule rule_name rule (getRecord st2 (generate_key h rule_name identifier)) t
      with ⟨o, record⟩
    cases o <;> simp [allowedOf]

/-- **C6** (independence of identifiers).  For one rule, if the derived
(hashed) keys of identifiers A and B differ, then any sequence of check and
record operations for A leaves the stored record for B unchanged, and hence
a check for B returns the same `allowed` answer as it would have without
A's operations. -/
theorem rateLimiter_identifier_independence
    (rules : List (String × RateLimitRule)) (h : String → String)
    (rule_name idA idB : String)
    (hk : generate_key h rule_name idA ≠ generate_key h rule_name idB) :
    ∀ (ops : List RLOp) (st : RLState) (t : ℚ),
      getRecord (applyOps rules h rule_name idA ops st) (generate_key h rule_name idB) =
        getRecord st (generate_key h rule_name idB) ∧
      allowedOf (runChecks rules h t [(rule_name, idB)]
          (applyOps rules h rule_name idA ops st)) =
        allowedOf (runChecks rules h t [(rule_name, idB)] st) := by
  intro ops st t
  have hpres := applyOps_preserves rules h rule_name idA
    (generate_key h rule_name idB) hk ops st
  exact ⟨hpres, runChecks_singleton_allowed_congr rules h t rule_name idB _ st hpres⟩

/-- Witness for C6 at a concrete input: two records and a check for
identifier "a" leave identifier "b"'s record and check outcome untouched. -/
theorem rateLimiter_identifier_independence_witness :
    getRecord (applyOps [("r", ⟨2, 10, none, some 5⟩)] (fun s => s) "r" "a"
        [RLOp.record 1, RLOp.record 2, RLOp.check 3] [])
      (generate_key (fun s => s) "r" "b") =
      getRecord ([] : RLState) (generate_key (fun s => s) "r" "b") ∧
    allowedOf (runChecks [("r", ⟨2, 10, none, some 5⟩)] (fun s => s) 3 [("r", "b")]
        (applyOps [("r", ⟨2, 10, none, some 5⟩)] (fun s => s) "r" "a"
          [RLOp.record 1, RLOp.record 2, RLOp.check 3] [])) =
      allowedOf (runChecks [("r", ⟨2, 10, none, some 5⟩)] (fun s => s) 3 [("r", "b")] []) :=
  rateLimiter_identifier_independence [("r", ⟨2, 10, none, some 5⟩)] (fun s => s) "r" "a" "b"
    (by decide) [RLOp.record 1, RLOp.record 2, RLOp.check 3] [] 3

/-- **C7 counterexample**: an entry whose expiry field is null satisfies the
claimed validity predicate ("valid iff `expires_at` is null or
`now <= expires_at`"), yet `SimpleCache._is_expired` reports it expired
(`if not expiry: return True`), so `get` on an existing, claim-valid entry
returns absent instead of its stored value. -/
theorem simpleCache_null_expiry_counterexample :
    specValidEntry (⟨0, none, 0⟩ : CacheItem ℕ) 5 ∧
    dictGet ([("k", ⟨0, none, 0⟩)] : List (String × CacheItem ℕ)) "k" = some ⟨0, none, 0⟩ ∧
    SimpleCache.is_expired (⟨0, none, 0⟩ : CacheItem ℕ) 5 = true ∧
    (SimpleCache.get (⟨[("k", ⟨0, none, 0⟩)], 100, 3600⟩ : SimpleCache ℕ) "k" 5).1 = none :=
  ⟨Or.inl rfl, rfl, rfl, rfl⟩

/-- **C7 amended**: in `SimpleCache` an entry is valid iff its expiry is
*non-null* and `now ≤ expiry` (a null/missing expiry counts as expired);
`get` returns the stored value exactly when an entry exists and is valid
(refreshing its `last_accessed`), returns absent when no entry exists, and
on an existing expired entry removes it and returns absent. -/
theorem simpleCache_get_semantics {α : Type} (c : SimpleCache α) (key : String) (now : ℚ)
    (hnd : (c.cache.map Prod.fst).Nodup) :
    (∀ item : CacheItem α, SimpleCache.is_expired item now = false ↔
      ∃ e, item.expiry = some e ∧ now ≤ e) ∧
    (dictGet c.cache key = none → SimpleCache.get c key now = (none, c)) ∧
    (∀ item, dictGet c.cache key = some item → SimpleCache.is_expired item now = false →
      (SimpleCache.get c key now).1 = some item.data ∧
      dictGet (SimpleCache.get c key now).2.cache key =
        some ({ item with last_accessed := now })) ∧
    (∀ item, dictGet c.cache key = some item → SimpleCache.is_expired item now = true →
      (SimpleCache.get c key now).1 = none ∧
      dictGet (SimpleCache.get c key now).2.cache key = none) := by
  refine ⟨?_, ?_, ?_, ?_⟩
  · intro item
    cases he : item.expiry with
    | none => simp [SimpleCache.is_expired, he]
    | some e => simp [SimpleCache.is_expired, he, not_lt]
  · intro hnone
    simp [SimpleCache.get, hnone]
  · intro item hsome hval
    simp [SimpleCache.get, hsome, hval, dictGet_dictSet_self]
  · intro item hsome hexp
    simp [SimpleCache.get, hsome, hexp, dictGet_dictErase_self hnd]

/-- Witness for the amended C7 at concrete inputs: a hit on an unexpired
entry returns its value and refreshes `last_accessed`; a miss on an absent
key returns absent and leaves the cache unchanged. -/
theorem simpleCache_get_semantics_witness :
    ((SimpleCache.get (⟨[("k", ⟨7, some 100, 1⟩)], 10, 10⟩ : SimpleCache ℕ) "k" 50).1 =
        some 7 ∧
      dictGet ((SimpleCache.get (⟨[("k", ⟨7, some 100, 1⟩)], 10, 10⟩ : SimpleCache ℕ)
        "k" 50).2.cache) "k" = some ⟨7, some 100, 50⟩) ∧
    SimpleCache.get (⟨[("k", ⟨7, some 100, 1⟩)], 10, 10⟩ : SimpleCache ℕ) "missing" 50 =
      (none, ⟨[("k", ⟨7, some 100, 1⟩)], 10, 10⟩) := by
  have h1 := simpleCache_get_semantics
    (⟨[("k", ⟨7, some 100, 1⟩)], 10, 10⟩ : SimpleCache ℕ) "k" 50 (by decide)
  have h2 := simpleCache_get_semantics
    (⟨[("k", ⟨7, some 100, 1⟩)], 10, 10⟩ : SimpleCache ℕ) "missing" 50 (by decide)
  exact ⟨h1.2.2.1 ⟨7, some 100, 1⟩ rfl rfl, h2.2.1 rfl⟩

theorem cleanup_expired_of_fresh {α : Type} (l : List (String × CacheItem α)) (now : ℚ)
    (hfresh : ∀ p ∈ l, SimpleCache.is_expired p.2 now = false) :
    SimpleCache.cleanup_expired l now = l :=
  List.filter_eq_self.mpr (fun p hp => by simp [hfresh p hp])

theorem oldestFrom_of_all_gt {α : Type} (l : List (String × CacheItem α)) :
    ∀ (k : String) (a : ℚ), (∀ p ∈ l, a < p.2.last_accessed) →
    SimpleCache.oldestFrom l k a = k := by
  induction l with
  | nil => intro k a _; rfl
  | cons p rest ih =>
    intro k a hall
    obtain ⟨k1, i1⟩ := p
    rw [SimpleCache.oldestFrom,
        if_neg (not_lt.mpr (le_of_lt (hall (k1, i1) (List.mem_cons_self _ _))))]
    exact ih k a (fun q hq => hall q (List.mem_cons_of_mem _ hq))

theorem oldestFrom_min {α : Type} (l : List (String × CacheItem α)) (k0 : String)
    (it0 : CacheItem α) :
    ∀ (k : String) (a : ℚ), (l.map Prod.fst).Nodup → (k0, it0) ∈ l →
    it0.last_accessed < a →
    (∀ p ∈ l, p.1 ≠ k0 → it0.last_accessed < p.2.last_accessed) →
    SimpleCache.oldestFrom l k a = k0 := by
  induction l with
  | nil => intro k a _ hmem; simp at hmem
  | cons p rest ih =>
    intro k a hnd hmem hlt hmin
    obtain ⟨k1, i1⟩ := p
    simp only [List.map_cons, List.nodup_cons] at hnd
    have hrest_min : ∀ p ∈ rest, p.1 ≠ k0 → it0.last_accessed < p.2.last_accessed :=
      fun q hq => hmin q (List.mem_cons_of_mem _ hq)
    by_cases hk1 : k1 = k0
    · subst hk1
      have hi1 : i1 = it0 := by
        rcases List.mem_cons.mp hmem with heq | hmem'
        · exact (Prod.mk.injEq .. ▸ heq.symm).2
        · exact absurd (List.mem_map.mpr ⟨(k1, it0), hmem', rfl⟩) hnd.1
      subst hi1
      rw [SimpleCache.oldestFrom, if_pos hlt]
      refine oldestFrom_of_all_gt rest k1 i1.last_accessed (fun q hq => ?_)
      refine hrest_min q hq (fun hqe => ?_)
      exact hnd.1 (List.mem_map.mpr ⟨q, hq, hqe⟩)
    · have hmem' : (k0, it0) ∈ rest := by
        rcases List.mem_cons.mp hmem with heq | hmem'
        · exact absurd (congrArg Prod.fst heq).symm hk1
        · exact hmem'
      have hlt1 : it0.last_accessed < i1.last_accessed :=
        hmin (k1, i1) (List.mem_cons_self _ _) hk1
      by_cases h1 : i1.last_accessed < a
      · rw [SimpleCache.oldestFrom, if_pos h1]
        exact ih k1 i1.last_accessed hnd.2 hmem' hlt1 hrest_min
      · rw [SimpleCache.oldestFrom, if_neg h1]
        exact ih k a hnd.2 hmem' hlt hrest_min

theorem oldestKey_eq {α : Type} (l : List (String × CacheItem α)) (k0 : String)
    (it0 : CacheItem α) (hnd : (l.map Prod.fst).Nodup) (hmem : (k0, it0) ∈ l)
    (hmin : ∀ p ∈ l, p.1 ≠ k0 → it0.last_accessed < p.2.last_accessed) :
    SimpleCache.oldestKey l = some k0 := by
  cases l with
  | nil => simp at hmem
  | cons p rest =>
    obtain ⟨k1, i1⟩ := p
    simp only [List.map_cons, List.nodup_cons] at hnd
    rw [SimpleCache.oldestKey, Option.some.injEq]
    have hrest_min : ∀ q ∈ rest, q.1 ≠ k0 → it0.last_accessed < q.2.last_accessed :=
      fun q hq => hmin q (List.mem_cons_of_mem _ hq)
    by_cases hk1 : k1 = k0
    · subst hk1
      have hi1 : i1 = it0 := by
        rcases List.mem_cons.mp hmem with heq | hmem'
        · exact (Prod.mk.injEq .. ▸ heq.symm).2
        · exact absurd (List.mem_map.mpr ⟨(k1, it0), hmem', rfl⟩) hnd.1
      subst hi1
      refine oldestFrom_of_all_gt rest k1 i1.last_accessed (fun q hq => ?_)
      refine hrest_min q hq (fun hqe => ?_)
      exact hnd.1 (List.mem_map.mpr ⟨q, hq, hqe⟩)
    · have hmem' : (k0, it0) ∈ rest := by
        rcases List.mem_cons.mp hmem with heq | hmem'
        · exact absurd (congrArg Prod.fst heq).symm hk1
        · exact hmem'
      have hlt1 : it0.last_accessed < i1.last_accessed :=
        hmin (k1, i1) (List.mem_cons_self _ _) hk1
      exact oldestFrom_min rest k0 it0 k1 i1.last_accessed hnd.2 hmem' hlt1 hrest_min

/-- **C8** (LRU eviction evicts exactly one).  On a cache holding exactly
`max_size` unexpired entries, `set` of a new key evicts exactly the entry
with the (unique) oldest `last_accessed`: afterwards the store again holds
`max_size` entries, the evicted key misses, every other previously stored
key still returns its value, and the new key returns the new value. -/
theorem simpleCache_lru_evicts_exactly_one {α : Type} (c : SimpleCache α) (key : String)
    (data : α) (now : ℚ) (k0 : String) (it0 : CacheItem α)
    (hnd : (c.cache.map Prod.fst).Nodup)
    (hsize : c.cache.length = c.max_size)
    (hfresh : ∀ p ∈ c.cache, SimpleCache.is_expired p.2 now = false)
    (httl : 0 ≤ c.ttl_seconds)
    (hnew : dictGet c.cache key = none)
    (hmem : (k0, it0) ∈ c.cache)
    (hmin : ∀ p ∈ c.cache, p.1 ≠ k0 → it0.last_accessed < p.2.last_accessed) :
    (SimpleCache.set c key data now).cache.length = c.max_size ∧
    ((SimpleCache.set c key data now).get k0 now).1 = none ∧
    (∀ k it, dictGet c.cache k = some it → k ≠ k0 →
      ((SimpleCache.set c key data now).get k now).1 = some it.data) ∧
    ((SimpleCache.set c key data now).get key now).1 = some data := by
  have hget0 : dictGet c.cache k0 = some it0 := mem_dictGet_of_nodup hnd hmem
  have hk0key : k0 ≠ key := fun he => by
    rw [he, hnew] at hget0
    exact Option.noConfusion hget0
  have hclean := cleanup_expired_of_fresh c.cache now hfresh
  have hold := oldestKey_eq c.cache k0 it0 hnd hmem hmin
  have hset : (SimpleCache.set c key data now).cache =
      dictSet (dictErase c.cache k0) key ⟨data, some (now + c.ttl_seconds), now⟩ := by
    simp only [SimpleCache.set, hclean]
    rw [if_pos (le_of_eq hsize.symm)]
    simp only [hold]
  have hkey_not : dictGet (dictErase c.cache k0) key = none := by
    rw [dictGet_dictErase_ne c.cache k0 key (Ne.symm hk0key)]
    exact hnew
  refine ⟨?_, ?_, ?_, ?_⟩
  · rw [hset, length_dictSet_of_none hkey_not]
    have := length_dictErase_of_some hget0
    omega
  · have h0 : dictGet (SimpleCache.set c key data now).cache k0 = none := by
      rw [hset, dictGet_dictSet_ne _ _ _ _ hk0key, dictGet_dictErase_self hnd]
    simp [SimpleCache.get, h0]
  · intro k it hkit hkk0
    have hkkey : k ≠ key := fun he => by
      rw [he, hnew] at hkit
      exact Option.noConfusion hkit
    have hk' : dictGet (SimpleCache.set c key data now).cache k = some it := by
      rw [hset, dictGet_dictSet_ne _ _ _ _ hkkey, dictGet_dictErase_ne _ _ _ hkk0, hkit]
    have hexp : SimpleCache.is_expired it now = false := hfresh (k, it) (dictGet_mem hkit)
    simp [SimpleCache.get, hk', hexp]
  · have hk' : dictGet (SimpleCache.set c key data now).cache key =
        some ⟨data, some (now + c.ttl_seconds), now⟩ := by
      rw [hset, dictGet_dictSet_self]
    have hexp : SimpleCache.is_expired
        (⟨data, some (now + c.ttl_seconds), now⟩ : CacheItem α) now = false := by
      simp only [SimpleCache.is_expired, decide_eq_false_iff_not, not_lt, gt_iff_lt]
      linarith
    simp [SimpleCache.get, hk', hexp]

/-- Witness for C8 at a concrete input: a full 2-entry cache; setting a new
key "c" evicts "a" (oldest `last_accessed`), keeps "b", stores "c". -/
theorem simpleCache_lru_evicts_exactly_one_witness :
    (SimpleCache.set (⟨[("a", ⟨1, some 100, 1⟩), ("b", ⟨2, some 100, 2⟩)], 2, 10⟩ :
        SimpleCache ℕ) "c" 3 50).cache.length = 2 ∧
    ((SimpleCache.set (⟨[("a", ⟨1, some 100, 1⟩), ("b", ⟨2, some 100, 2⟩)], 2, 10⟩ :
        SimpleCache ℕ) "c" 3 50).get "a" 50).1 = none ∧
    ((SimpleCache.set (⟨[("a", ⟨1, some 100, 1⟩), ("b", ⟨2, some 100, 2⟩)], 2, 10⟩ :
        SimpleCache ℕ) "c" 3 50).get "b" 50).1 = some 2 ∧
    ((SimpleCache.set (⟨[("a", ⟨1, some 100, 1⟩), ("b", ⟨2, some 100, 2⟩)], 2, 10⟩ :
        SimpleCache ℕ) "c" 3 50).get "c" 50).1 = some 3 := by
  have h := simpleCache_lru_evicts_exactly_one
    (⟨[("a", ⟨1, some 100, 1⟩), ("b", ⟨2, some 100, 2⟩)], 2, 10⟩ : SimpleCache ℕ)
    "c" 3 50 "a" ⟨1, some 100, 1⟩ (by decide) rfl (by decide) (by decide) rfl
    (by decide) (by decide)
  exact ⟨h.1, h.2.1, h.2.2.1 "b" ⟨2, some 100, 2⟩ rfl (by decide), h.2.2.2⟩

/-- **C9** (overwriting is not exempt from eviction).  On a cache holding at
least `max_size` unexpired entries that already contains `key`, a `set` of
that same `key` still evicts the entry with the oldest `last_accessed`
first — which can be a different key `k0` — so a `set` that adds no new key
makes the unrelated `k0` unretrievable while `key` holds the new value. -/
theorem simpleCache_overwrite_still_evicts {α : Type} (c : SimpleCache α) (key : String)
    (data : α) (now : ℚ) (k0 : String) (it0 itk : CacheItem α)
    (hnd : (c.cache.map Prod.fst).Nodup)
    (hsize : c.max_size ≤ c.cache.length)
    (hfresh : ∀ p ∈ c.cache, SimpleCache.is_expired p.2 now = false)
    (httl : 0 ≤ c.ttl_seconds)
    (hk : dictGet c.cache key = some itk)
    (hmem : (k0, it0) ∈ c.cache) (hne : k0 ≠ key)
    (hmin : ∀ p ∈ c.cache, p.1 ≠ k0 → it0.last_accessed < p.2.last_accessed) :
    dictGet (SimpleCache.set c key data now).cache k0 = none ∧
    ((SimpleCache.set c key data now).get k0 now).1 = none ∧
    ((SimpleCache.set c key data now).get key now).1 = some data := by
  have hclean := cleanup_expired_of_fresh c.cache now hfresh
  have hold := oldestKey_eq c.cache k0 it0 hnd hmem hmin
  have hset : (SimpleCache.set c key data now).cache =
      dictSet (dictErase c.cache k0) key ⟨data, some (now + c.ttl_seconds), now⟩ := by
    simp only [SimpleCache.set, hclean]
    rw [if_pos hsize]
    simp only [hold]
  have h0 : dictGet (SimpleCache.set c key data now).cache k0 = none := by
    rw [hset, dictGet_dictSet_ne _ _ _ _ hne, dictGet_dictErase_self hnd]
  refine ⟨h0, by simp [SimpleCache.get, h0], ?_⟩
  have hk' : dictGet (SimpleCache.set c key data now).cache key =
      some ⟨data, some (now + c.ttl_seconds), now⟩ := by
    rw [hset, dictGet_dictSet_self]
  have hexp : SimpleCache.is_expired
      (⟨data, some (now + c.ttl_seconds), now⟩ : CacheItem α) now = false := by
    simp only [SimpleCache.is_expired, decide_eq_false_iff_not, not_lt, gt_iff_lt]
    linarith
  simp [SimpleCache.get, hk', hexp]

/-- Witness for C9 at a concrete input: overwriting the already-present key
"b" on a full 2-entry cache evicts the unrelated oldest key "a". -/
theorem simpleCache_overwrite_still_evicts_witness :
    dictGet (SimpleCache.set (⟨[("a", ⟨1, some 100, 1⟩), ("b", ⟨2, some 100, 2⟩)], 2, 10⟩ :
        SimpleCache ℕ) "b" 9 50).cache "a" = none ∧
    ((SimpleCache.set (⟨[("a", ⟨1, some 100, 1⟩), ("b", ⟨2, some 100, 2⟩)], 2, 10⟩ :
        SimpleCache ℕ) "b" 9 50).get "a" 50).1 = none ∧
    ((SimpleCache.set (⟨[("a", ⟨1, some 100, 1⟩), ("b", ⟨2, some 100, 2⟩)], 2, 10⟩ :
        SimpleCache ℕ) "b" 9 50).get "b" 50).1 = some 9 :=
  simpleCache_overwrite_still_evicts
    (⟨[("a", ⟨1, some 100, 1⟩), ("b", ⟨2, some 100, 2⟩)], 2, 10⟩ : SimpleCache ℕ)
    "b" 9 50 "a" ⟨1, some 100, 1⟩ ⟨2, some 100, 2⟩ (by decide) (by decide) (by decide)
    (by decide) rfl (by decide) (by decide) (by decide)

/-- **C10 counterexample**: on a reachable 100-entry cache containing one
`None`-expiry entry, `set("k", 5, ttl = 0)` does *not* store anything — the
periodic sweep raises `TypeError` comparing a float with `None`, the
`except` handler returns `False`, and the pre-existing live entry for "k"
remains retrievable (`get` returns 7) — refuting "after set(key, value,
ttl ≤ 0) … every subsequent get(key) returns absent" as universally stated. -/
theorem memoryCache_nonpositive_ttl_counterexample :
    mcFullCache.cache.length % 100 = 0 ∧
    MemoryCache.set mcFullCache "k" 5 0 100 = (false, mcFullCache) ∧
    (MemoryCache.get mcFullCache "k" 200).1 = some 7 :=
  ⟨rfl, rfl, rfl⟩

/-- **C10 amended**: when a `set` with `ttl ≤ 0` completes successfully
(returns `True`; its periodic cleanup sweep was skipped or raised no
`TypeError`), the entry is stored with `expires_at = None`, and any
subsequent `get` of that key returns absent, leaving the cache unchanged:
`_is_expired` raises `TypeError` comparing a float with `None`, and the
`except` handler yields `None` without deleting.  (When the sweep instead
hits an existing `None`-expiry entry — cache size a multiple of 100 — `set`
stores nothing, returns `False`, and an existing live entry for the key
remains retrievable, per the counterexample.) -/
theorem memoryCache_nonpositive_ttl_unretrievable {α : Type} (c c' : MemoryCache α)
    (key : String) (value : α) (ttl : ℤ) (now : ℚ)
    (httl : ttl ≤ 0)
    (hset : MemoryCache.set c key value ttl now = (true, c')) :
    dictGet c'.cache key = some ⟨value, some none, now⟩ ∧
    ∀ now' : ℚ, MemoryCache.get c' key now' = (none, c') := by
  have hitem : (if 0 < ttl then some (now + (ttl : ℚ)) else none) = (none : Option ℚ) :=
    if_neg (not_lt.mpr httl)
  by_cases hen : c.enabled
  · rcases hcl : (if c.cache.length % 100 = 0 then MemoryCache.cleanup_expired c.cache now
        else .ok c.cache) with e | cache1
    · simp [MemoryCache.set, hen, hcl] at hset
    · simp only [MemoryCache.set, hen, if_true, hcl, Prod.mk.injEq, true_and] at hset
      rw [← hset]
      constructor
      · rw [dictGet_dictSet_self, hitem]
      · intro now'
        simp [MemoryCache.get, hen, hitem, dictGet_dictSet_self, MemoryCache.is_expired]
  · simp [MemoryCache.set, hen] at hset

/-- Witness for the amended C10 at a concrete input: `set` on an empty cache
with `ttl = 0` succeeds, stores a `None`-expiry entry, and a later `get`
returns absent. -/
theorem memoryCache_nonpositive_ttl_unretrievable_witness :
    dictGet ((⟨[("k", ⟨5, some none, 100⟩)], true⟩ : MemoryCache ℕ)).cache "k" =
      some ⟨5, some none, 100⟩ ∧
    MemoryCache.get (⟨[("k", ⟨5, some none, 100⟩)], true⟩ : MemoryCache ℕ) "k" 500 =
      (none, ⟨[("k", ⟨5, some none, 100⟩)], true⟩) := by
  have h := memoryCache_nonpositive_ttl_unretrievable (⟨[], true⟩ : MemoryCache ℕ)
    (⟨[("k", ⟨5, some none, 100⟩)], true⟩ : MemoryCache ℕ) "k" 5 0 100 (by decide) rfl
  exact ⟨h.1, h.2 500⟩

end AutoForms
